import Mathlib

/-!
Verification development for the `talv` chess engine.

This file gives a shallow embedding of the engine's core data model and
operations (`src/board.rs`, `src/location.rs`, `src/boardstate.rs`,
`src/movegen.rs`, `src/bots/bot1.rs`) and settles the frozen claims about
them.  Machine integers (`u8`, `i8`) are embedded as `Nat`/`Int` with the
source's bit operations; fallible operations return `Option` (with `none`
standing for a Rust panic) or carry an `Except` for recoverable `Err`
results.
-/

set_option maxRecDepth 100000

namespace Talv

/-- `Piece` from `src/board.rs`.  The discriminant values (`Pawn = 1` ..
`King = 6`) matter for the bit-packed board encoding and are kept below in
`Piece.toBits`. -/
inductive Piece where
  | Pawn | Rook | Knight | Bishop | Queen | King
  deriving DecidableEq, Repr

/-- Numeric value of a piece, mirroring the `#[repr(u8)]` discriminants
(`Pawn = 1`, `Rook = 2`, `Knight = 3`, `Bishop = 4`, `Queen = 5`,
`King = 6`). -/
def Piece.toBits : Piece → Nat
  | .Pawn => 1
  | .Rook => 2
  | .Knight => 3
  | .Bishop => 4
  | .Queen => 5
  | .King => 6

/-- `Piece::from_u8` from `src/board.rs`.  The source has
`_ => unreachable!()`; every byte actually stored in a `Board` was written
by `Field.toBits`, so the junk default `.Pawn` is never produced.  It is
kept total so `Board.get` is total. -/
def Piece.fromBits : Nat → Piece
  | 1 => .Pawn
  | 2 => .Rook
  | 3 => .Knight
  | 4 => .Bishop
  | 5 => .Queen
  | 6 => .King
  | _ => .Pawn

/-- `Colour` from `src/board.rs`. -/
inductive Colour where
  | White | Black
  deriving DecidableEq, Repr

/-- The `Not` implementation for `Colour` (`!colour`). -/
def Colour.opp : Colour → Colour
  | .White => .Black
  | .Black => .White

/-- `Field` from `src/board.rs`: a board cell. -/
inductive Field where
  | Empty
  | Occupied (c : Colour) (p : Piece)
  deriving DecidableEq, Repr

def Field.is_empty : Field → Bool
  | .Empty => true
  | .Occupied _ _ => false

def Field.is_occupied : Field → Bool
  | .Empty => false
  | .Occupied _ _ => true

/-- `Field::into_bits`: `Empty ↦ 0`, white piece ↦ its discriminant,
black piece ↦ `0b1000 | discriminant`. -/
def Field.toBits : Field → Nat
  | .Empty => 0
  | .Occupied .White p => p.toBits
  | .Occupied .Black p => 8 ||| p.toBits

/-- `Field::from_bits`: the low three bits select the piece (zero meaning
empty), bit 3 the colour. -/
def Field.fromBits (n : Nat) : Field :=
  let p := n &&& 7
  if p = 0 then .Empty
  else .Occupied (if n &&& 8 = 0 then .White else .Black) (Piece.fromBits p)

/-- `Field::or`: packs two fields into one byte (low nibble first). -/
def Field.orPack (a b : Field) : Nat := a.toBits ||| (b.toBits <<< 4)

/-- A board square (`Coords`): a file (`a`..`h` as `0`..`7`) and a rank
(`1`..`8` as `0`..`7`).  The Rust `Coords` stores the pair packed in one
`u8`; the components are the observable state. -/
structure Coords where
  file : Fin 8
  rank : Fin 8
  deriving DecidableEq, Repr

/-- `Coords::into_u8`: the packed byte, `rank * 8 + file`, which makes
`Board`'s byte index `into_u8 >> 1` and nibble selector `into_u8 & 1`
match the raster layout of the `START` constant in `src/board.rs`. -/
def Coords.toU8 (c : Coords) : Nat := 8 * c.rank.val + c.file.val

/-- Build a `Coords` from integer file/rank, `None` when out of bounds —
the semantics of `Letter::new`/`Number::new` composed as in
`Coords::from_u8_tuple` (a negative value cast `as u8` falls outside
`0..8` and is rejected). -/
def Coords.ofInts (l n : Int) : Option Coords :=
  if h : 0 ≤ l ∧ l < 8 ∧ 0 ≤ n ∧ n < 8 then
    some ⟨⟨l.toNat, by omega⟩, ⟨n.toNat, by omega⟩⟩
  else none

/-- `Coords::add`: relative displacement, `None` out of bounds. -/
def Coords.add (c : Coords) (l n : Int) : Option Coords :=
  Coords.ofInts ((c.file.val : Int) + l) ((c.rank.val : Int) + n)

/-- `Coords::sub`: componentwise difference `(Δfile, Δrank)`. -/
def Coords.sub (c d : Coords) : Int × Int :=
  ((c.file.val : Int) - (d.file.val : Int), (c.rank.val : Int) - (d.rank.val : Int))

/-- `LEAPS` from `src/location.rs`: the eight knight offsets, in source
order. -/
def LEAPS : List (Int × Int) :=
  [(2, 1), (2, -1), (1, 2), (1, -2), (-2, 1), (-2, -1), (-1, 2), (-1, -2)]

/-- Modelled from the spec: `Coords::full_range` lives in the newer
`location.rs` that is not under `src/`; per the spec's "fixed raster
order" it is the 64 squares in the order `a1, b1, …, h1, a2, …, h8` —
the order the `NumberRange × LetterRange` loops of `boardstate.rs` scan
and the order of the packed byte. -/
def Coords.fullRange : List Coords :=
  (List.finRange 64).map fun b =>
    ⟨⟨b.val % 8, Nat.mod_lt _ (by decide)⟩, ⟨b.val / 8, by omega⟩⟩

/-- `Board` from `src/board.rs`: 32 bytes, two squares per byte.  Bytes
are `u8`, so each entry is `< 256`. -/
def Board := { l : List Nat // l.length = 32 ∧ ∀ b ∈ l, b < 256 }

instance : DecidableEq Board := fun a b =>
  decidable_of_iff (a.val = b.val) Subtype.ext_iff.symm

/-- `Board::EMPTY`. -/
def Board.empty : Board := ⟨List.replicate 32 0, by decide⟩

/-- `Board::interpret_coords`: byte index and whether the square lives in
the high nibble. -/
def Board.byteIdx (c : Coords) : Nat := c.toU8 >>> 1

def Board.hiNibble (c : Coords) : Bool := c.toU8 &&& 1 == 1

/-- `Board::get`. -/
def Board.get (b : Board) (c : Coords) : Field :=
  let f := b.val.getD (Board.byteIdx c) 0
  if Board.hiNibble c then Field.fromBits (f >>> 4)
  else Field.fromBits (f &&& 0xf)

/-- The byte produced by `Board::set` for one square: keep the other
nibble of `byte`, overwrite the square's nibble with the field's bits. -/
def Board.writeByte (byte : Nat) (field : Field) (hi : Bool) : Nat :=
  if hi then (byte &&& 0x0f) ||| (field.toBits <<< 4)
  else (byte &&& 0xf0) ||| field.toBits

lemma Board.writeByte_lt :
    ∀ byte < 256, ∀ (f : Field) (hi : Bool), Board.writeByte byte f hi < 256 := by
  have h : ∀ byte < 256, ∀ fb < 16, ∀ hi : Bool,
      (if hi then (byte &&& 0x0f) ||| (fb <<< 4) else (byte &&& 0xf0) ||| fb) < 256 := by
    decide
  intro byte hb f hi
  have hfb : f.toBits < 16 := by
    cases f with
    | Empty => decide
    | Occupied c p => cases c <;> cases p <;> decide
  exact h byte hb f.toBits hfb hi

lemma Board.getD_lt (b : Board) (i : Nat) : b.val.getD i 0 < 256 := by
  by_cases hi : i < b.val.length
  · rw [List.getD_eq_getElem _ _ hi]
    exact b.property.2 _ (List.getElem_mem hi)
  · rw [List.getD_eq_default _ _ (le_of_not_lt hi)]
    decide

/-- `Board::set`: writes `field` into the square's nibble and returns the
previously stored field together with the new board. -/
def Board.set (b : Board) (c : Coords) (field : Field) : Field × Board :=
  let old := b.get c
  let i := Board.byteIdx c
  let byte := b.val.getD i 0
  (old, ⟨b.val.set i (Board.writeByte byte field (Board.hiNibble c)), by
    refine ⟨by simpa using b.property.1, ?_⟩
    intro x hx
    rcases List.mem_or_eq_of_mem_set hx with h | h
    · exact b.property.2 x h
    · exact h ▸ Board.writeByte_lt _ (Board.getD_lt b i) field _⟩)

/-- `START` from `src/board.rs`: the canonical starting layout, written
with the same `or`-packing as the source. -/
def NO : Field := .Empty
def BP : Field := .Occupied .Black .Pawn
def BR : Field := .Occupied .Black .Rook
def BN : Field := .Occupied .Black .Knight
def BB : Field := .Occupied .Black .Bishop
def BQ : Field := .Occupied .Black .Queen
def BK : Field := .Occupied .Black .King
def WP : Field := .Occupied .White .Pawn
def WR : Field := .Occupied .White .Rook
def WN : Field := .Occupied .White .Knight
def WB : Field := .Occupied .White .Bishop
def WQ : Field := .Occupied .White .Queen
def WK : Field := .Occupied .White .King

def START : Board :=
  ⟨[WR.orPack WN, WB.orPack WQ, WK.orPack WB, WN.orPack WR,
    WP.orPack WP, WP.orPack WP, WP.orPack WP, WP.orPack WP,
    NO.orPack NO, NO.orPack NO, NO.orPack NO, NO.orPack NO,
    NO.orPack NO, NO.orPack NO, NO.orPack NO, NO.orPack NO,
    NO.orPack NO, NO.orPack NO, NO.orPack NO, NO.orPack NO,
    NO.orPack NO, NO.orPack NO, NO.orPack NO, NO.orPack NO,
    BP.orPack BP, BP.orPack BP, BP.orPack BP, BP.orPack BP,
    BR.orPack BN, BB.orPack BQ, BK.orPack BB, BN.orPack BR], by decide⟩

/-! ## Board state (`src/boardstate.rs`) -/

instance : Repr Board := ⟨fun b _ => repr b.val⟩

/-- `CastlesAllowed` from `src/boardstate.rs`. -/
structure CastlesAllowed where
  short : Bool
  long : Bool
  deriving DecidableEq, Repr

/-- `BoardState` from `src/boardstate.rs`. -/
structure BoardState where
  board : Board
  side_to_move : Colour
  black_castling : CastlesAllowed
  white_castling : CastlesAllowed
  en_passant_target : Option Coords
  deriving DecidableEq, Repr

/-- `Success` from `src/boardstate.rs`. -/
inductive Success where
  | Capture | PawnMovement | PawnMovementAndCheck | Check | PieceMovement
  deriving DecidableEq, Repr

/-- `BoardState::new`: the canonical starting position. -/
def BoardState.new : BoardState :=
  { board := START
    side_to_move := .White
    black_castling := ⟨true, true⟩
    white_castling := ⟨true, true⟩
    en_passant_target := none }

def Field.isPawn : Field → Bool
  | .Occupied _ .Pawn => true
  | _ => false

def Field.isKing : Field → Bool
  | .Occupied _ .King => true
  | _ => false

/-- `BoardState::check_along`: a sliding-piece ray is valid when the shape
predicate `f` accepts the absolute displacement and every intermediate
square is free. -/
def check_along (s : BoardState) (frm unto : Coords) (f : Int → Int → Bool) : Bool :=
  let dl := (Coords.sub unto frm).1
  let dn := (Coords.sub unto frm).2
  let al : Int := dl.natAbs
  let an : Int := dn.natAbs
  let distance := max dl.natAbs dn.natAbs
  if f al an then
    (List.range (distance - 1)).all fun k =>
      match Coords.ofInts ((frm.file.val : Int) + ((k : Int) + 1) * dl.sign)
          ((frm.rank.val : Int) + ((k : Int) + 1) * dn.sign) with
      | some cs => (s.board.get cs).is_empty
      | none => false
  else false

/-- `BoardState::is_possible`: pseudo-legality of a movement, ignoring
whether the mover's own king is left in check. -/
def is_possible (s : BoardState) (frm unto : Coords) (colour_to_move : Colour) : Bool :=
  if frm = unto then false
  else
    match s.board.get frm with
    | .Empty => false
    | .Occupied mc mover =>
      if colour_to_move ≠ mc then false
      else
        let taking? : Option Bool :=
          match s.board.get unto with
          | .Occupied tc _ => if tc = colour_to_move then none else some true
          | .Empty => some false
        match taking? with
        | none => false
        | some taking =>
          match mover with
          | .Pawn =>
            let sign : Int := match colour_to_move with | .Black => -1 | .White => 1
            let d_num : Int := sign * ((unto.rank.val : Int) - (frm.rank.val : Int))
            let taking := taking || (s.en_passant_target == some unto)
            if (frm.file != unto.file) != taking then false
            else if taking then
              d_num == 1 && ((unto.file.val : Int) - (frm.file.val : Int)).natAbs == 1
            else if d_num == 1 then true
            else if d_num == 2 && 2 * (frm.rank.val : Int) + 5 * sign == 7 then
              match frm.add 0 sign with
              | some m => (s.board.get m).is_empty
              | none => false
            else false
          | .Knight =>
            let d := Coords.sub unto frm
            (d.1.natAbs == 2 && d.2.natAbs == 1) || (d.1.natAbs == 1 && d.2.natAbs == 2)
          | .Bishop => check_along s frm unto fun x y => x == y
          | .Queen => check_along s frm unto fun x y => x == y || x == 0 || y == 0
          | .Rook => check_along s frm unto fun x y => x == 0 || y == 0
          | .King =>
            let d := Coords.sub unto frm
            if d.1.natAbs ≤ 1 && d.2.natAbs ≤ 1 then true
            else if d.2 == 0 then
              let ac := match colour_to_move with
                | .Black => s.black_castling
                | .White => s.white_castling
              !taking &&
                ((ac.short && d.1 == 2 &&
                    (match frm.add 1 0 with
                     | some m => (s.board.get m).is_empty
                     | none => false))
                 ||
                 (ac.long && d.1 == -2 &&
                    (match frm.add (-1) 0 with
                     | some m => (s.board.get m).is_empty
                     | none => false)))
            else false

/-- `BoardState::pawn_promototion_pending` (source spelling): first back
rank square holding a pawn that still awaits promotion, scanning files
`a..h`, the black rank first at each file. -/
def pawn_promototion_pending (s : BoardState) : Option Coords :=
  (List.finRange 8).findSome? fun l =>
    if s.board.get ⟨l, ⟨0, by decide⟩⟩ = BP then some ⟨l, ⟨0, by decide⟩⟩
    else if s.board.get ⟨l, ⟨7, by decide⟩⟩ = WP then some ⟨l, ⟨7, by decide⟩⟩
    else none

/-- `BoardState::find_king`: first square (raster order) holding the
king of colour `c`.  The source panics (`unreachable!()`) when there is no
such king; that is the `none` case. -/
def find_king (s : BoardState) (c : Colour) : Option Coords :=
  Coords.fullRange.find? fun cs => s.board.get cs == Field.Occupied c .King

/-- `BoardState::in_check`: scans all 64 squares for an opposing piece
with a pseudo-legal move onto the king square.  `none` models the panic
when the king is missing. -/
def in_check (s : BoardState) (side : Colour) : Option Bool :=
  (find_king s side).map fun king =>
    Coords.fullRange.any fun cs => is_possible s cs king side.opp

/-- Helper for `update_allowed_castles`: the new rights record, given the
back-rank number `brn` of the record's side. -/
def CastlesAllowed.update (ac : CastlesAllowed) (mover : Field) (pos : Coords)
    (brn : Nat) : CastlesAllowed :=
  match mover with
  | .Occupied _ .King => ⟨false, false⟩
  | .Occupied _ .Rook =>
    if pos.rank.val = brn then
      if pos.file.val = 7 then { ac with short := false }
      else if pos.file.val = 0 then { ac with long := false }
      else ac
    else ac
  | _ => ac

/-- `BoardState::update_allowed_castles`: updates the rights record of the
side currently to move. -/
def update_allowed_castles (s : BoardState) (mover : Field) (pos : Coords) : BoardState :=
  match s.side_to_move with
  | .Black => { s with black_castling := s.black_castling.update mover pos 7 }
  | .White => { s with white_castling := s.white_castling.update mover pos 0 }

/-- The piece-moving phase of `BoardState::make_move`: remove the mover,
drop it on the target (killing the passed pawn instead when the move is an
en-passant capture).  Returns `(mover, taken, new board)`; `none` models
the `unreachable!()` panic on an en-passant target off ranks 3/6. -/
def movePieces (s : BoardState) (frm unto : Coords) : Option (Field × Field × Board) :=
  let pr := Board.set s.board frm .Empty
  match s.en_passant_target with
  | some ept =>
    if unto = ept then
      match (if ept.rank.val = 2 then ept.add 0 1
             else if ept.rank.val = 5 then ept.add 0 (-1)
             else none) with
      | none => none
      | some tp =>
        let kr := Board.set (Board.set pr.2 unto pr.1).2 tp .Empty
        some (pr.1, kr.1, kr.2)
    else
      some (pr.1, (Board.set pr.2 unto pr.1).1, (Board.set pr.2 unto pr.1).2)
  | none =>
    some (pr.1, (Board.set pr.2 unto pr.1).1, (Board.set pr.2 unto pr.1).2)

/-- The side-to-move flip (`self.side_to_move = !self.side_to_move`). -/
def flipSide (s : BoardState) : BoardState := { s with side_to_move := s.side_to_move.opp }

/-- The castling-rights/side-flip prefix of `make_move`'s bookkeeping:
`update_allowed_castles(mover, from)`, flip, then
`update_allowed_castles(taken, unto)`. -/
def metaBase (s : BoardState) (mover taken : Field) (b2 : Board)
    (frm unto : Coords) : BoardState :=
  update_allowed_castles
    (flipSide (update_allowed_castles { s with board := b2 } mover frm)) taken unto

/-- The bookkeeping phase of `BoardState::make_move`: castling rights for
both sides, the side-to-move flip, the en-passant target, and the rook
relocation of a castle.  `none` models the source's `unwrap`/
`unreachable!()` panics. -/
def updateMeta (s : BoardState) (mover taken : Field) (b2 : Board)
    (frm unto : Coords) : Option BoardState :=
  if mover.isPawn && (Coords.sub unto frm).2.natAbs == 2 then
    (unto.add 0 (-(Coords.sub unto frm).2 / 2)).map fun tgt =>
      { metaBase s mover taken b2 frm unto with en_passant_target := some tgt }
  else
    if mover.isKing && (Coords.sub unto frm).1.natAbs == 2 then
      if (Coords.sub unto frm).1.sign = 1 then
        (unto.add (-1) 0).map fun rp =>
          let s4 := { metaBase s mover taken b2 frm unto with
                      en_passant_target := (none : Option Coords) }
          let rr := Board.set s4.board ⟨⟨7, by decide⟩, unto.rank⟩ .Empty
          { s4 with board := (Board.set rr.2 rp rr.1).2 }
      else if (Coords.sub unto frm).1.sign = -1 then
        (unto.add 1 0).map fun rp =>
          let s4 := { metaBase s mover taken b2 frm unto with
                      en_passant_target := (none : Option Coords) }
          let rr := Board.set s4.board ⟨⟨0, by decide⟩, unto.rank⟩ .Empty
          { s4 with board := (Board.set rr.2 rp rr.1).2 }
      else none
    else some { metaBase s mover taken b2 frm unto with en_passant_target := none }

/-- The `Success` value returned by `BoardState::make_move`. -/
def classifySuccess (mover taken : Field) (check : Bool) : Success :=
  if taken.is_occupied then .Capture
  else match mover.isPawn, check with
    | true, true => .PawnMovementAndCheck
    | true, false => .PawnMovement
    | false, true => .Check
    | false, false => .PieceMovement

/-- The mutating body of `BoardState::make_move` (after the guard). -/
def moveBody (s : BoardState) (frm unto : Coords) : Option (Success × BoardState) :=
  match movePieces s frm unto with
  | none => none
  | some (mover, taken, b2) =>
    match updateMeta s mover taken b2 frm unto with
    | none => none
    | some s4 =>
      match in_check s4 s4.side_to_move with
      | none => none
      | some check => some (classifySuccess mover taken check, s4)

/-- `BoardState::make_move` from `src/boardstate.rs` (the two-argument
version present under `src/`).  The result pairs the `Result` value with
the state of `self` after the call: `Err` leaves the receiver untouched,
so the error case carries `s` itself; `none` models a panic. -/
def make_move (s : BoardState) (frm unto : Coords) : Option (Except Unit Success × BoardState) :=
  if (pawn_promototion_pending s).isSome || !is_possible s frm unto s.side_to_move then
    some (.error (), s)
  else
    match moveBody s frm unto with
    | none => none
    | some (suc, s') => some (.ok suc, s')

/-- The en-passant target that `make_move` records for a successful move:
the square passed over on a pawn double step, `none` otherwise (mirrors
the assignment at the end of `make_move`). -/
def epTargetOf (s : BoardState) (frm unto : Coords) : Option Coords :=
  if (s.board.get frm).isPawn && ((Coords.sub unto frm).2.natAbs == 2) then
    unto.add 0 (-(Coords.sub unto frm).2 / 2)
  else none

/-- Pointwise comparison of the four castling-rights booleans: every
right already lost in `b` is still lost in `a`. -/
def castles_le (a b : BoardState) : Prop :=
  (b.white_castling.short = false → a.white_castling.short = false)
  ∧ (b.white_castling.long = false → a.white_castling.long = false)
  ∧ (b.black_castling.short = false → a.black_castling.short = false)
  ∧ (b.black_castling.long = false → a.black_castling.long = false)

deriving instance DecidableEq for Except

def e2c : Coords := ⟨4, 1⟩
def e3c : Coords := ⟨4, 2⟩
def e4c : Coords := ⟨4, 3⟩
def d2c : Coords := ⟨3, 1⟩
def d4c : Coords := ⟨3, 3⟩

/-- The state after playing e2→e4 from the starting position. -/
def e2e4After : BoardState :=
  ((make_move BoardState.new e2c e4c).getD (Except.error (), BoardState.new)).2

/-- The state after playing d2→d4 from the starting position. -/
def d2d4After : BoardState :=
  ((make_move BoardState.new d2c d4c).getD (Except.error (), BoardState.new)).2

/-- Builds a board by writing the given fields onto the empty board. -/
def boardOfPieces (l : List (Coords × Field)) : Board :=
  l.foldl (fun b cf => (Board.set b cf.1 cf.2).2) Board.empty

/-- White: Ke1, Rh1 (short castling right kept); black: Rf5, Kh8; white to
move.  The black rook attacks f1, the square the king passes over when
castling short, while e1 itself is not attacked. -/
def c3State : BoardState :=
  { board := boardOfPieces [(⟨4, 0⟩, WK), (⟨7, 0⟩, WR), (⟨5, 4⟩, BR), (⟨7, 7⟩, BK)]
    side_to_move := .White
    black_castling := ⟨false, false⟩
    white_castling := ⟨true, false⟩
    en_passant_target := none }

/-- As `c3State` but with the black rook on e5, attacking the king on e1
itself: white is currently in check. -/
def c3StateB : BoardState :=
  { c3State with
    board := boardOfPieces [(⟨4, 0⟩, WK), (⟨7, 0⟩, WR), (⟨4, 4⟩, BR), (⟨7, 7⟩, BK)] }

/-! ## The three-argument `make_move` (modelled from the spec)

`src/movegen.rs`, `src/possible_moves.rs`, `src/game.rs` and
`src/bots/bot1.rs` all call `BoardState::make_move(from, unto, promotion)`
together with the newer `location.rs` API (`File`/`Rank`,
`Coords::full_range`), but the `boardstate.rs` snapshot under `src/` holds
an older two-argument `make_move`.  The missing function is modelled from
the spec, §4.1 `apply_move`, reusing the parts that are present in
`src/boardstate.rs` (pseudo-legality, piece movement, rights bookkeeping,
flip, en-passant target, classification). -/

/-- Modelled from the spec: the opponent's back rank for a mover of
colour `c` (§4.1 step 2, "a pawn landing on the opponent's back rank"). -/
def promotionRank : Colour → Nat
  | .White => 7
  | .Black => 0

/-- Modelled from the spec: whether the move is a promotion move in the
sense of §4.1 step 2 — the piece on `frm` is a pawn and `unto` lies on
the mover's opponent's back rank. -/
def isPromotionMove (s : BoardState) (frm unto : Coords) : Bool :=
  match s.board.get frm with
  | .Occupied c .Pawn => unto.rank.val == promotionRank c
  | _ => false

/-- Modelled from the spec: §4.1 step 2 — a promotion move must name a
promotion piece that is neither pawn nor king; a non-promotion move must
not name one. -/
def promotionSpecOk (s : BoardState) (frm unto : Coords) (prm : Option Piece) : Bool :=
  if isPromotionMove s frm unto then
    match prm with
    | some .Pawn => false
    | some .King => false
    | some _ => true
    | none => false
  else prm == none

/-- Modelled from the spec: a square is attacked by `side` when some
piece of `side` has a pseudo-legal move onto it — the same scan the
spec's `in_check` (§4.1) prescribes for the king square. -/
def square_attacked (s : BoardState) (target : Coords) (side : Colour) : Bool :=
  Coords.fullRange.any fun cs => is_possible s cs target side

/-- Modelled from the spec: the success path of the three-argument
`make_move` — the piece movement and bookkeeping of the two-argument
`make_move` (§4.1 steps 4-9, present in `src/boardstate.rs`), with the
moved pawn replaced by the chosen promotion piece on a promotion move. -/
def moveBody3 (s : BoardState) (frm unto : Coords) (prm : Option Piece) :
    Option (Except Unit Success × BoardState) :=
  match movePieces s frm unto with
  | none => none
  | some (mover, taken, b2) =>
    let b2' :=
      if isPromotionMove s frm unto then
        match prm, s.board.get frm with
        | some p, .Occupied c _ => (Board.set b2 unto (.Occupied c p)).2
        | _, _ => b2
      else b2
    match updateMeta s mover taken b2' frm unto with
    | none => none
    | some s4 =>
      match in_check s4 s4.side_to_move with
      | none => none
      | some check => some (.ok (classifySuccess mover taken check), s4)

/-- Modelled from the spec: the three-argument
`make_move(from, unto, promotion)` (absent from `src/`; §4.1
`apply_move`).  Steps: (1) reject non-pseudo-legal moves; (2) validate
the promotion specification; (3) reject a king's 2-square move when the
king is in check or the square it passes over is attacked; (4)–(9) the
movement/bookkeeping shared with the two-argument version, with the
promotion piece placed on the target square. -/
def make_move3 (s : BoardState) (frm unto : Coords) (prm : Option Piece) :
    Option (Except Unit Success × BoardState) :=
  if !is_possible s frm unto s.side_to_move then some (.error (), s)
  else if !promotionSpecOk s frm unto prm then some (.error (), s)
  else if (s.board.get frm).isKing && (Coords.sub unto frm).1.natAbs == 2 then
    match in_check s s.side_to_move with
    | none => none
    | some chk =>
      match frm.add (Coords.sub unto frm).1.sign 0 with
      | none => none
      | some passed =>
        if chk || square_attacked s passed s.side_to_move.opp then some (.error (), s)
        else moveBody3 s frm unto prm
  else moveBody3 s frm unto prm

/-! ## Move generator (`src/movegen.rs`) -/

/-- `Move` from `src/movegen.rs`. -/
def Move := Coords × Coords × Option Piece

instance : DecidableEq Move := instDecidableEqProd

def STRAIGHTS : List (Int × Int) := [(1, 0), (-1, 0), (0, 1), (0, -1)]
def CASTLINGS : List (Int × Int) := [(2, 0), (-2, 0)]
def DIAGANOLS : List (Int × Int) := [(1, 1), (1, -1), (-1, 1), (-1, -1)]
def KNIGHTIES : List (Int × Int) := LEAPS

/-- Result of one `check_move` closure call in `gen_legal_moves`:
`panic` for a propagated panic, `noSpace` for the sink's
`Err(NoMoreSpace)` (carrying the moves accepted so far), `cont` to keep
scanning (with whether the move was accepted). -/
inductive GenStep where
  | panic
  | noSpace (acc : List Move)
  | cont (acc : List Move) (added : Bool)

/-- Result of a generation run: `ok` is a normal return, `noSpace` the
propagated sink failure. -/
inductive GenOut where
  | panic
  | noSpace (acc : List Move)
  | ok (acc : List Move)

/-- The sink abstraction (`AddMove`), by capacity: `none` is the `Vec`
sink (never fails), `some c` a bounded sink that fails once `c` moves
are held (`()` is `some 0`, the search buffer `some 200`). -/
def addMoveCap (cap : Option Nat) (acc : List Move) (m : Move) : Option (List Move) :=
  match cap with
  | none => some (acc ++ [m])
  | some c => if acc.length < c then some (acc ++ [m]) else none

/-- The `check_move` closure of `gen_legal_moves`: apply the move to a
copy, keep it when it succeeds and does not leave the mover's own king in
check, and hand it to the sink. -/
def checkMoveG (s : BoardState) (cap : Option Nat) (acc : List Move)
    (frm unto : Coords) (prm : Option Piece) : GenStep :=
  match make_move3 s frm unto prm with
  | none => .panic
  | some (.error _, _) => .cont acc false
  | some (.ok _, s') =>
    match in_check s' s'.side_to_move.opp with
    | none => .panic
    | some true => .cont acc false
    | some false =>
      match addMoveCap cap acc (frm, unto, prm) with
      | none => .noSpace acc
      | some acc' => .cont acc' true

/-- Runs `check_move` over a list of fixed candidates (pawn, knight and
king offsets), stopping on panic or sink failure. -/
def runCands (s : BoardState) (cap : Option Nat) (frm : Coords) :
    List (Coords × Option Piece) → List Move → GenOut
  | [], acc => .ok acc
  | (unto, prm) :: rest, acc =>
    match checkMoveG s cap acc frm unto prm with
    | .panic => .panic
    | .noSpace a => .noSpace a
    | .cont a _ => runCands s cap frm rest a

/-- Pawn candidate targets in source order — single push, double push,
the two diagonals — expanded into the four promotion moves (queen,
knight, rook, bishop) on a back-rank target. -/
def pawnCands (frm : Coords) (fwd : Int) : List (Coords × Option Piece) :=
  ([((0 : Int), 1 * fwd), (0, 2 * fwd), (1, 1 * fwd), (-1, 1 * fwd)].filterMap
    fun d => frm.add d.1 d.2).flatMap fun unto =>
      if unto.rank.val = 0 ∨ unto.rank.val = 7 then
        [(unto, some Piece.Queen), (unto, some Piece.Knight),
         (unto, some Piece.Rook), (unto, some Piece.Bishop)]
      else [(unto, none)]

/-- `follow_direction`: walk a ray, continuing only while `check_move`
accepted the move.  The loop index starts at 1; a fuel of 8 is enough
because every direction vector has a nonzero component of magnitude 1, so
`add` falls off the board after at most 8 steps. -/
def followDirection (s : BoardState) (cap : Option Nat) (frm : Coords) (dl dn : Int) :
    Nat → Nat → List Move → GenOut
  | _, 0, acc => .ok acc
  | i, fuel + 1, acc =>
    match frm.add ((i : Int) * dl) ((i : Int) * dn) with
    | none => .ok acc
    | some unto =>
      match checkMoveG s cap acc frm unto none with
      | .panic => .panic
      | .noSpace a => .noSpace a
      | .cont a true => followDirection s cap frm dl dn (i + 1) fuel a
      | .cont a false => .ok a

/-- Rays of a sliding piece, in source order. -/
def runDirections (s : BoardState) (cap : Option Nat) (frm : Coords) :
    List (Int × Int) → List Move → GenOut
  | [], acc => .ok acc
  | d :: rest, acc =>
    match followDirection s cap frm d.1 d.2 1 8 acc with
    | .panic => .panic
    | .noSpace a => .noSpace a
    | .ok a => runDirections s cap frm rest a

/-- One square of the `gen_legal_moves` scan. -/
def genSquare (s : BoardState) (cap : Option Nat) (frm : Coords) (acc : List Move) : GenOut :=
  match s.board.get frm with
  | .Occupied side p =>
    if side = s.side_to_move then
      match p with
      | .Pawn =>
        let fwd : Int := match s.side_to_move with | .Black => -1 | .White => 1
        runCands s cap frm (pawnCands frm fwd) acc
      | .Knight =>
        runCands s cap frm ((KNIGHTIES.filterMap fun d => frm.add d.1 d.2).map ((·, none))) acc
      | .King =>
        runCands s cap frm
          (((STRAIGHTS ++ DIAGANOLS ++ CASTLINGS).filterMap fun d => frm.add d.1 d.2).map
            ((·, none))) acc
      | .Rook => runDirections s cap frm STRAIGHTS acc
      | .Bishop => runDirections s cap frm DIAGANOLS acc
      | .Queen => runDirections s cap frm (STRAIGHTS ++ DIAGANOLS) acc
    else .ok acc
  | .Empty => .ok acc

def genSquares (s : BoardState) (cap : Option Nat) :
    List Coords → List Move → GenOut
  | [], acc => .ok acc
  | c :: rest, acc =>
    match genSquare s cap c acc with
    | .panic => .panic
    | .noSpace a => .noSpace a
    | .ok a => genSquares s cap rest a

/-- `gen_legal_moves` over a sink of capacity `cap`: raster scan of the
64 squares, generating each friendly piece's candidates in order. -/
def gen_legal_moves (s : BoardState) (cap : Option Nat) : GenOut :=
  genSquares s cap Coords.fullRange []

/-- `get_all_moves`: the `Vec` sink, which never reports `NoMoreSpace`
(the source unwraps the `Ok`). -/
def get_all_moves (s : BoardState) : Option (List Move) :=
  match gen_legal_moves s none with
  | .ok acc => some acc
  | .noSpace _ => none
  | .panic => none

/-- `any_legal_moves`: the `()` sink fails on the first accepted move, so
the generator's `is_err()` means "a legal move exists". -/
def any_legal_moves (s : BoardState) : Option Bool :=
  match gen_legal_moves s (some 0) with
  | .noSpace _ => some true
  | .ok _ => some false
  | .panic => none

/-- A generated move that is a castle: its origin square holds a king and
it moves two files. -/
def isCastleMove (s : BoardState) (m : Move) : Bool :=
  (s.board.get m.1).isKing && ((Coords.sub m.2.1 m.1).1.natAbs == 2)

/-- White: pawn a7, Ke1; black: Ke8; white to move.  a7→a8 is a promotion
move. -/
def c4State : BoardState :=
  { board := boardOfPieces [(⟨0, 6⟩, WP), (⟨4, 0⟩, WK), (⟨4, 7⟩, BK)]
    side_to_move := .White
    black_castling := ⟨false, false⟩
    white_castling := ⟨false, false⟩
    en_passant_target := none }

/-- The state after promoting a7→a8=Q in `c4State`. -/
def c4After : BoardState :=
  ((make_move3 c4State ⟨0, 6⟩ ⟨0, 7⟩ (some Piece.Queen)).getD
    (Except.error (), c4State)).2

/-! ## Evaluator and search (`src/bots/bot1.rs`)

The search works on `f32` values.  The values the engine actually
produces are `NaN` (the initial `alpha`/`beta`), the two infinities
(mate scores) and finite numbers; they are modelled by `EvalV` with
rationals for the finite range.  The exact `f32` rounding of
`eval_pieces` (and the value of `0.1 * r.powf(1.1)`, which has no exact
rational form) is not modelled: the pawn-advancement bonus is a parameter
`pb`, and every claim below holds for all `pb`. -/

inductive EvalV where
  | nan
  | negInf
  | posInf
  | fin (q : ℚ)
  deriving DecidableEq, Repr

/-- `f32` negation. -/
def EvalV.neg : EvalV → EvalV
  | .nan => .nan
  | .negInf => .posInf
  | .posInf => .negInf
  | .fin q => .fin (-q)

def EvalV.isNan : EvalV → Bool
  | .nan => true
  | _ => false

/-- IEEE `>` (false whenever a NaN is involved). -/
def EvalV.gtv : EvalV → EvalV → Bool
  | .nan, _ => false
  | _, .nan => false
  | .posInf, .posInf => false
  | .posInf, _ => true
  | .negInf, _ => false
  | .fin _, .posInf => false
  | .fin a, .fin b => decide (b < a)
  | .fin _, .negInf => true

/-- IEEE `<=` (false whenever a NaN is involved). -/
def EvalV.lev : EvalV → EvalV → Bool
  | .nan, _ => false
  | _, .nan => false
  | .negInf, _ => true
  | _, .posInf => true
  | .posInf, _ => false
  | .fin _, .negInf => false
  | .fin a, .fin b => decide (a ≤ b)

/-- `f32::max`: ignores a NaN argument. -/
def EvalV.fmax : EvalV → EvalV → EvalV
  | .nan, b => b
  | a, .nan => a
  | .posInf, _ => .posInf
  | _, .posInf => .posInf
  | .negInf, b => b
  | a, .negInf => a
  | .fin x, .fin y => .fin (max x y)

/-- `f32` addition on the values that arise (NaN propagates, opposite
infinities give NaN). -/
def EvalV.addv : EvalV → EvalV → EvalV
  | .nan, _ => .nan
  | _, .nan => .nan
  | .posInf, .negInf => .nan
  | .negInf, .posInf => .nan
  | .posInf, _ => .posInf
  | _, .posInf => .posInf
  | .negInf, _ => .negInf
  | _, .negInf => .negInf
  | .fin x, .fin y => .fin (x + y)

/-- `f32::total_cmp` on the values the engine produces (the `NaN` here is
the positive quiet NaN `f32::NAN`; a negative NaN never arises). -/
def EvalV.totalCmp : EvalV → EvalV → Ordering
  | .nan, .nan => .eq
  | .nan, _ => .gt
  | _, .nan => .lt
  | .negInf, .negInf => .eq
  | .negInf, _ => .lt
  | _, .negInf => .gt
  | .posInf, .posInf => .eq
  | .posInf, _ => .gt
  | _, .posInf => .lt
  | .fin x, .fin y => compare x y

/-- `piece_value` from `src/bots/bot1.rs`; `pb` stands for the
`0.1 * (r as f32).powf(1.1)` pawn-advancement bonus (see the section
comment), the file argument is unused as in the source, and `3.2` is
approximated by `16/5`. -/
def piece_value (pb : Int → ℚ) (_f r : Int) (p : Piece) : ℚ :=
  match p with
  | .Pawn => 1 + pb r
  | .Knight => 3
  | .Bishop => 16 / 5
  | .Rook => 5
  | .Queen => 9
  | .King => 0

/-- `eval_pieces`: the material difference from the mover's perspective,
averaged over the number of pieces; an empty board gives `0.0 / 0.0`,
i.e. NaN. -/
def eval_pieces (pb : Int → ℚ) (s : BoardState) : EvalV :=
  let acc := Coords.fullRange.foldl
    (fun (acc : ℚ × ℚ) cs =>
      match s.board.get cs with
      | .Empty => acc
      | .Occupied c p =>
        let r : Int := match c with
          | .White => (cs.rank.val : Int)
          | .Black => 7 - (cs.rank.val : Int)
        let v := piece_value pb (cs.file.val : Int) r p
        if c = s.side_to_move then (acc.1 + v, acc.2 + 1) else (acc.1 - v, acc.2 + 1))
    (0, 0)
  if acc.2 = 0 then .nan else .fin (acc.1 / acc.2)

/-- `eval` from `src/bots/bot1.rs`: `-∞` on checkmate, `0` on stalemate,
`+∞` for a delivered mate, otherwise the averaged material difference
plus a bonus of `10` when the opponent is in check.  `none` models the
panics of the underlying scans (missing king). -/
def eval (pb : Int → ℚ) (s : BoardState) : Option EvalV :=
  match any_legal_moves s with
  | none => none
  | some any =>
    if !any then
      match in_check s s.side_to_move with
      | none => none
      | some chk => some (if chk then .negInf else .fin 0)
    else
      match in_check s s.side_to_move.opp with
      | none => none
      | some oppChk =>
        if oppChk then
          match any_legal_moves (flipSide s) with
          | none => none
          | some any2 =>
            if !any2 then some .posInf
            else some ((eval_pieces pb s).addv (.fin 10))
        else some ((eval_pieces pb s).addv (.fin 0))

/-- The transposition table `HashMap<BoardState, (usize, f32)>`, as an
association list without duplicate keys.  Only `get`, `insert` and `len`
are ever used, and on those the model agrees with the hash map. -/
def TMap := List (BoardState × Nat × EvalV)

def TMap.find? (tr : TMap) (s : BoardState) : Option (Nat × EvalV) :=
  (List.find? (fun e => e.1 == s) tr).map (·.2)

def TMap.length (tr : TMap) : Nat := List.length tr

/-- `HashMap::insert`: overwrite an existing binding, else add one. -/
def TMap.insert (tr : TMap) (s : BoardState) (d : Nat) (v : EvalV) : TMap :=
  if (List.find? (fun e => e.1 == s) tr).isSome then
    tr.map fun e => if e.1 == s then (s, d, v) else e
  else List.append tr [(s, d, v)]

/-- The move buffer of `search_inner` (`MAX_MOVES = 200`); exceeding it
is the `expect("max moves exceeded")` panic. -/
def searchMovesOf (s : BoardState) : Option (List Move) :=
  match gen_legal_moves s (some 200) with
  | .ok acc => some acc
  | .noSpace _ => none
  | .panic => none

/-- The move loop of `search_inner`: negamax with alpha-beta, breaking on
`beta <= alpha`; `sPrev` is the depth-decremented recursive search. -/
def searchLoop (sPrev : BoardState → EvalV → EvalV → TMap → Option (EvalV × TMap)) :
    List Move → BoardState → EvalV → EvalV → TMap → Option (EvalV × TMap)
  | [], _, alpha, _, tr => some (alpha, tr)
  | (f, t, prm) :: rest, s, alpha, beta, tr =>
    match make_move3 s f t prm with
    | some (.ok _, ns) =>
      match sPrev ns beta.neg alpha.neg tr with
      | none => none
      | some (v, tr') =>
        let ev := v.neg
        if alpha.isNan || ev.gtv alpha then
          let alpha' := alpha.fmax ev
          if beta.lev alpha' then some (alpha', tr')
          else searchLoop sPrev rest s alpha' beta tr'
        else searchLoop sPrev rest s alpha beta tr'
    | _ => none

/-- `search_inner` from `src/bots/bot1.rs`.  On the `depth == 0` /
budget-exhausted path the cache is consulted regardless of the recorded
depth (the `if let Some((_, v))` with the depth discarded). -/
def search_inner (pb : Int → ℚ) (maxN : Nat)
    (sPrev : BoardState → EvalV → EvalV → TMap → Option (EvalV × TMap))
    (depth : Nat) (s : BoardState) (alpha beta : EvalV) (tr : TMap) :
    Option (EvalV × TMap) :=
  if depth = 0 ∨ maxN ≤ tr.length then
    match TMap.find? tr s with
    | some (_, v) => some (v, tr)
    | none =>
      match eval pb s with
      | none => none
      | some v => some (v, tr)
  else
    match searchMovesOf s with
    | none => none
    | some ms =>
      if ms.isEmpty then
        match eval pb s with
        | none => none
        | some v => some (v, tr)
      else searchLoop sPrev ms s alpha beta tr

/-- `search` from `src/bots/bot1.rs`: return a cached value when its
recorded depth is at least the requested one, otherwise run
`search_inner` and store its value at the requested depth. -/
def search (pb : Int → ℚ) (maxN : Nat) :
    Nat → BoardState → EvalV → EvalV → TMap → Option (EvalV × TMap)
  | depth, s, a, b, tr =>
    let sPrev : BoardState → EvalV → EvalV → TMap → Option (EvalV × TMap) :=
      match depth with
      | 0 => fun _ _ _ _ => none
      | d + 1 => fun s' a' b' tr' => search pb maxN d s' a' b' tr'
    match TMap.find? tr s with
    | some (d, v) =>
      if depth ≤ d then some (v, tr)
      else
        match search_inner pb maxN sPrev depth s a b tr with
        | none => none
        | some (v', tr') => some (v', TMap.insert tr' s depth v')
    | none =>
      match search_inner pb maxN sPrev depth s a b tr with
      | none => none
      | some (v', tr') => some (v', TMap.insert tr' s depth v')

/-- The Rust binary search (`slice::binary_search_by`) merged with
`unwrap_or_else(identity)`: the matching index or the insertion point. -/
def binSearchGo (f : EvalV → Ordering) (xs : List EvalV) : Nat → Nat → Nat → Nat
  | 0, left, _ => left
  | fuel + 1, left, right =>
    if left < right then
      let mid := left + (right - left) / 2
      match f (xs.getD mid .nan) with
      | .lt => binSearchGo f xs fuel (mid + 1) right
      | .gt => binSearchGo f xs fuel left mid
      | .eq => mid
    else left

def binSearch (f : EvalV → Ordering) (xs : List EvalV) : Nat :=
  binSearchGo f xs (xs.length + 1) 0 xs.length

/-- `Vec::insert` at an index (the index is at most the length here). -/
def listInsertAt {α : Type} : Nat → α → List α → List α
  | 0, a, l => a :: l
  | _ + 1, a, [] => [a]
  | n + 1, a, x :: xs => x :: listInsertAt n a xs

/-- `SearchResult` from `src/bots/bot1.rs`. -/
structure SearchResult where
  ordered_moves : List Move
  nodes : Nat
  eval : EvalV

/-- The root-move loop of `start_search`: every root move is fully
evaluated and inserted into the descending `evals`/`ordered_moves` lists
at the position `total_cmp` finds. -/
def startSearchLoop (pb : Int → ℚ) (maxN depth : Nat) :
    List Move → BoardState → List EvalV → List Move → TMap →
      Option (List EvalV × List Move × TMap)
  | [], _, evals, ordered, tr => some (evals, ordered, tr)
  | (f, t, prm) :: rest, s, evals, ordered, tr =>
    match make_move3 s f t prm with
    | some (.ok _, ns) =>
      let beta := evals.getD 0 EvalV.nan
      match search pb maxN (depth - 1) ns EvalV.nan beta.neg tr with
      | none => none
      | some (v, tr') =>
        let ev := v.neg
        let i := binSearch (fun e => ev.totalCmp e) evals
        startSearchLoop pb maxN depth rest s (listInsertAt i ev evals)
          (listInsertAt i (f, t, prm) ordered) tr'
    | _ => none

/-- `start_search` from `src/bots/bot1.rs` (it asserts `depth != 0`). -/
def start_search (pb : Int → ℚ) (s : BoardState) (moves : List Move) (depth : Nat)
    (tr : TMap) (maxN : Nat) : Option (SearchResult × TMap) :=
  if depth = 0 then none
  else
    match startSearchLoop pb maxN depth moves s [] [] tr with
    | none => none
    | some (evals, ordered, tr') =>
      some ({ ordered_moves := ordered, nodes := tr'.length,
              eval := evals.getD 0 (EvalV.fin 0) }, tr')

/-- The iterative-deepening loop of `get_moves_ranked`, over the depths
`1..=max_depth`, stopping early once the cache outgrows the budget. -/
def rankLoop (pb : Int → ℚ) (maxN : Nat) :
    List Nat → BoardState → EvalV → List Move → TMap → Option (EvalV × List Move)
  | [], _, ev, moves, _ => some (ev, moves)
  | depth :: rest, s, _, moves, tr =>
    match start_search pb s moves depth tr maxN with
    | none => none
    | some (res, tr') =>
      if res.nodes > maxN then some (res.eval, res.ordered_moves)
      else rankLoop pb maxN rest s res.eval res.ordered_moves tr'

/-- `get_moves_ranked` from `src/bots/bot1.rs`. -/
def get_moves_ranked (pb : Int → ℚ) (s : BoardState) (max_depth max_nodes : Nat) :
    Option (EvalV × List Move) :=
  match get_all_moves s with
  | none => none
  | some moves => rankLoop pb max_nodes (List.range' 1 max_depth) s EvalV.nan moves []

instance : DecidableEq TMap :=
  inferInstanceAs (DecidableEq (List (BoardState × Nat × EvalV)))

/-- Stalemate: black (to move) Kh8, white Kf7 and Qg6 — black has no
legal move and is not in check. -/
def c7State : BoardState :=
  { board := boardOfPieces [(⟨7, 7⟩, BK), (⟨5, 6⟩, WK), (⟨6, 5⟩, WQ)]
    side_to_move := .Black
    black_castling := ⟨false, false⟩
    white_castling := ⟨false, false⟩
    en_passant_target := none }

/-- Checkmate: black (to move) Kh8, white Kf7 and Qg7. -/
def c7Mate : BoardState :=
  { board := boardOfPieces [(⟨7, 7⟩, BK), (⟨5, 6⟩, WK), (⟨6, 6⟩, WQ)]
    side_to_move := .Black
    black_castling := ⟨false, false⟩
    white_castling := ⟨false, false⟩
    en_passant_target := none }

/-- The transposition table holding a stale depth-0 evaluation `42` for
the stalemate position (whose true static evaluation is `0`). -/
def c8Cache : TMap := [(c7State, 0, EvalV.fin 42)]

lemma Board.byteIdx_lt (c : Coords) : Board.byteIdx c < 32 := by
  have hf := c.file.isLt
  have hr := c.rank.isLt
  simp only [byteIdx, Coords.toU8, Nat.shiftRight_succ, Nat.shiftRight_zero]
  omega


lemma Field.toBits_lt (f : Field) : f.toBits < 16 := by
  cases f with
  | Empty => decide
  | Occupied c p => cases c <;> cases p <;> decide

lemma Field.fromBits_toBits (f : Field) : Field.fromBits f.toBits = f := by
  cases f with
  | Empty => decide
  | Occupied c p => cases c <;> cases p <;> decide

lemma Board.nib_hi_write : ∀ x < 256, ∀ y < 16, ((x &&& 0x0f) ||| (y <<< 4)) >>> 4 = y := by
  decide

lemma Board.nib_lo_write : ∀ x < 256, ∀ y < 16, ((x &&& 0xf0) ||| y) &&& 0xf = y := by
  decide

lemma Board.nib_lo_keep : ∀ x < 256, ∀ y < 16, ((x &&& 0x0f) ||| (y <<< 4)) &&& 0xf = x &&& 0xf := by
  decide

lemma Board.nib_hi_keep : ∀ x < 256, ∀ y < 16, ((x &&& 0xf0) ||| y) >>> 4 = x >>> 4 := by
  decide

lemma Coords.eq_of_byteIdx_hi {c d : Coords} (h1 : Board.byteIdx c = Board.byteIdx d)
    (h2 : Board.hiNibble c = Board.hiNibble d) : c = d := by
  have hcf := c.file.isLt
  have hcr := c.rank.isLt
  have hdf := d.file.isLt
  have hdr := d.rank.isLt
  simp only [Board.byteIdx, Board.hiNibble, Coords.toU8, Nat.shiftRight_one,
    Nat.and_one_is_mod] at h1 h2
  have h2' : ((8 * c.rank.val + c.file.val) % 2 = 1) ↔
      ((8 * d.rank.val + d.file.val) % 2 = 1) := by
    constructor <;> intro h
    · have : ((8 * d.rank.val + d.file.val) % 2 == 1) = true := by rw [← h2]; simp [h]
      simpa using this
    · have : ((8 * c.rank.val + c.file.val) % 2 == 1) = true := by rw [h2]; simp [h]
      simpa using this
  have hmod : (8 * c.rank.val + c.file.val) % 2 = (8 * d.rank.val + d.file.val) % 2 := by
    rcases Nat.mod_two_eq_zero_or_one (8 * c.rank.val + c.file.val) with h | h <;>
      rcases Nat.mod_two_eq_zero_or_one (8 * d.rank.val + d.file.val) with h' | h' <;>
        simp_all
  have hu : 8 * c.rank.val + c.file.val = 8 * d.rank.val + d.file.val := by omega
  have hf : c.file = d.file := Fin.ext (by omega)
  have hr : c.rank = d.rank := Fin.ext (by omega)
  cases c; cases d
  simp_all

/-- Claim C10: `Board::get`/`Board::set` obey the lens and frame laws in
spite of the two-squares-per-byte bit-packed storage: `set` returns the
field previously stored at the square, the square afterwards holds the
written field, and every other square is untouched. -/
lemma Board.get_val (l : List Nat) (h) (c : Coords) :
    Board.get ⟨l, h⟩ c =
      if Board.hiNibble c then Field.fromBits ((l.getD (Board.byteIdx c) 0) >>> 4)
      else Field.fromBits ((l.getD (Board.byteIdx c) 0) &&& 0xf) := rfl

theorem board_set_lens_laws (b : Board) (c : Coords) (f : Field) :
    (b.set c f).1 = b.get c
    ∧ (b.set c f).2.get c = f
    ∧ ∀ c' : Coords, c' ≠ c → (b.set c f).2.get c' = b.get c' := by
  have hlen : b.val.length = 32 := b.property.1
  have hb : b.val.getD (Board.byteIdx c) 0 < 256 := Board.getD_lt b _
  have hfb : f.toBits < 16 := Field.toBits_lt f
  have hib : Board.byteIdx c < b.val.length := by
    rw [hlen]; exact Board.byteIdx_lt c
  obtain ⟨l', hl'⟩ : ∃ p, (b.set c f).2 = p := ⟨_, rfl⟩
  have hval : l'.val = b.val.set (Board.byteIdx c)
      (Board.writeByte (b.val.getD (Board.byteIdx c) 0) f (Board.hiNibble c)) := by
    rw [← hl']; rfl
  have hget : ∀ c'' : Coords, Board.get l' c'' =
      if Board.hiNibble c'' then Field.fromBits ((l'.val.getD (Board.byteIdx c'') 0) >>> 4)
      else Field.fromBits ((l'.val.getD (Board.byteIdx c'') 0) &&& 0xf) := by
    intro c''
    obtain ⟨lv, hp⟩ := l'
    exact Board.get_val lv hp c''
  have hset_eq : l'.val.getD (Board.byteIdx c) 0
      = Board.writeByte (b.val.getD (Board.byteIdx c) 0) f (Board.hiNibble c) := by
    rw [hval, List.getD_eq_getElem _ _ (by simpa using hib)]
    exact List.getElem_set_self _
  refine ⟨rfl, ?_, ?_⟩
  · rw [hl', hget c, hset_eq, Board.writeByte]
    cases hh : Board.hiNibble c with
    | true =>
      simp only [if_true]
      rw [Board.nib_hi_write _ hb _ hfb, Field.fromBits_toBits]
    | false =>
      simp only [Bool.false_eq_true, if_false]
      rw [Board.nib_lo_write _ hb _ hfb, Field.fromBits_toBits]
  · intro c' hne
    rw [hl', hget c']
    by_cases hidx : Board.byteIdx c' = Board.byteIdx c
    · have hhi : Board.hiNibble c' ≠ Board.hiNibble c := by
        intro hhi
        exact hne (Coords.eq_of_byteIdx_hi hidx hhi)
      rw [hidx, hset_eq, Board.writeByte, Board.get]
      cases hh : Board.hiNibble c with
      | true =>
        have hh' : Board.hiNibble c' = false := by
          cases hx : Board.hiNibble c' <;> simp_all
        simp only [hh', if_true, Bool.false_eq_true, if_false]
        rw [Board.nib_lo_keep _ hb _ hfb, hidx]
      | false =>
        have hh' : Board.hiNibble c' = true := by
          cases hx : Board.hiNibble c' <;> simp_all
        simp only [hh', if_true, Bool.false_eq_true, if_false]
        rw [Board.nib_hi_keep _ hb _ hfb, hidx]
    · have hset_ne : l'.val.getD (Board.byteIdx c') 0 = b.val.getD (Board.byteIdx c') 0 := by
        rw [hval]
        by_cases hi' : Board.byteIdx c' < b.val.length
        · rw [List.getD_eq_getElem _ _ (by simpa using hi'), List.getD_eq_getElem _ _ hi']
          exact List.getElem_set_ne (fun h => hidx h.symm) _
        · rw [List.getD_eq_default _ _ (by simpa using le_of_not_lt hi'),
            List.getD_eq_default _ _ (le_of_not_lt hi')]
      rw [hset_ne, Board.get]

/-- Witness for C10 at a concrete board, square and field: clearing `e2`
on the start board leaves `e4` (a different square sharing nothing) and
`f2` (the neighbouring square) unchanged, and the returned field is the
white pawn that stood on `e2`. -/
theorem board_set_lens_laws_witness :
    (START.set ⟨⟨4, by decide⟩, ⟨1, by decide⟩⟩ Field.Empty).1 = WP
    ∧ (START.set ⟨⟨4, by decide⟩, ⟨1, by decide⟩⟩ Field.Empty).2.get
        ⟨⟨5, by decide⟩, ⟨1, by decide⟩⟩ = START.get ⟨⟨5, by decide⟩, ⟨1, by decide⟩⟩ := by
  have h := board_set_lens_laws START ⟨⟨4, by decide⟩, ⟨1, by decide⟩⟩ Field.Empty
  exact ⟨h.1.trans (by decide), h.2.2 ⟨⟨5, by decide⟩, ⟨1, by decide⟩⟩ (by decide)⟩

lemma castles_le_trans {a b c : BoardState} (h1 : castles_le a b) (h2 : castles_le b c) :
    castles_le a c :=
  ⟨fun h => h1.1 (h2.1 h), fun h => h1.2.1 (h2.2.1 h),
   fun h => h1.2.2.1 (h2.2.2.1 h), fun h => h1.2.2.2 (h2.2.2.2 h)⟩

lemma CastlesAllowed.update_mono (ac : CastlesAllowed) (m : Field) (p : Coords) (brn : Nat) :
    (ac.short = false → (ac.update m p brn).short = false)
    ∧ (ac.long = false → (ac.update m p brn).long = false) := by
  cases m with
  | Empty => exact ⟨id, id⟩
  | Occupied c pc =>
    cases pc <;> simp only [CastlesAllowed.update] <;> constructor <;> intro h <;>
      first
        | exact h
        | rfl
        | trivial
        | (split_ifs <;> simp_all)

lemma update_allowed_castles_side (s : BoardState) (m : Field) (p : Coords) :
    (update_allowed_castles s m p).side_to_move = s.side_to_move := by
  cases h : s.side_to_move <;> simp [update_allowed_castles, h]

lemma update_allowed_castles_ep (s : BoardState) (m : Field) (p : Coords) :
    (update_allowed_castles s m p).en_passant_target = s.en_passant_target := by
  cases h : s.side_to_move <;> simp [update_allowed_castles, h]

lemma update_allowed_castles_mono (s : BoardState) (m : Field) (p : Coords) :
    castles_le (update_allowed_castles s m p) s := by
  cases h : s.side_to_move
  · simp only [update_allowed_castles, h, castles_le]
    exact ⟨(CastlesAllowed.update_mono _ m p 0).1, (CastlesAllowed.update_mono _ m p 0).2,
      id, id⟩
  · simp only [update_allowed_castles, h, castles_le]
    exact ⟨id, id, (CastlesAllowed.update_mono _ m p 7).1,
      (CastlesAllowed.update_mono _ m p 7).2⟩

lemma movePieces_mover {s : BoardState} {frm unto : Coords} {mover taken : Field} {b2 : Board}
    (h : movePieces s frm unto = some (mover, taken, b2)) : mover = s.board.get frm := by
  unfold movePieces at h
  split at h
  · split at h
    · split at h
      · exact absurd h (by simp)
      · injection h with h'
        exact congrArg (·.1) h' |>.symm
    · injection h with h'
      exact congrArg (·.1) h' |>.symm
  · injection h with h'
    exact congrArg (·.1) h' |>.symm

lemma metaBase_side (s : BoardState) (mover taken : Field) (b2 : Board) (frm unto : Coords) :
    (metaBase s mover taken b2 frm unto).side_to_move = s.side_to_move.opp := by
  unfold metaBase
  rw [update_allowed_castles_side]
  show (update_allowed_castles { s with board := b2 } mover frm).side_to_move.opp = _
  rw [update_allowed_castles_side]

lemma metaBase_mono (s : BoardState) (mover taken : Field) (b2 : Board) (frm unto : Coords) :
    castles_le (metaBase s mover taken b2 frm unto) s := by
  refine castles_le_trans (update_allowed_castles_mono _ taken unto) ?_
  refine castles_le_trans (a := flipSide (update_allowed_castles { s with board := b2 } mover frm))
    ⟨id, id, id, id⟩ ?_
  exact castles_le_trans (update_allowed_castles_mono _ mover frm) ⟨id, id, id, id⟩

lemma updateMeta_spec {s : BoardState} {mover taken : Field} {b2 : Board} {frm unto : Coords}
    {s4 : BoardState} (h : updateMeta s mover taken b2 frm unto = some s4) :
    s4.side_to_move = s.side_to_move.opp
    ∧ s4.en_passant_target =
        (if mover.isPawn && ((Coords.sub unto frm).2.natAbs == 2) then
          unto.add 0 (-(Coords.sub unto frm).2 / 2)
        else none)
    ∧ castles_le s4 s := by
  unfold updateMeta at h
  by_cases hpw : (mover.isPawn && (Coords.sub unto frm).2.natAbs == 2) = true
  · rw [if_pos hpw] at h
    rw [Option.map_eq_some'] at h
    obtain ⟨tgt, hadd, hf⟩ := h
    subst hf
    refine ⟨metaBase_side .., ?_, metaBase_mono ..⟩
    show some tgt = _
    rw [if_pos hpw, hadd]
  · rw [if_neg hpw] at h
    by_cases hk : (mover.isKing && (Coords.sub unto frm).1.natAbs == 2) = true
    · rw [if_pos hk] at h
      by_cases h1 : (Coords.sub unto frm).1.sign = 1
      · rw [if_pos h1] at h
        rw [Option.map_eq_some'] at h
        obtain ⟨rp, hadd, hf⟩ := h
        subst hf
        exact ⟨metaBase_side .., by rw [if_neg hpw], metaBase_mono ..⟩
      · rw [if_neg h1] at h
        by_cases h2 : (Coords.sub unto frm).1.sign = -1
        · rw [if_pos h2] at h
          rw [Option.map_eq_some'] at h
          obtain ⟨rp, hadd, hf⟩ := h
          subst hf
          exact ⟨metaBase_side .., by rw [if_neg hpw], metaBase_mono ..⟩
        · rw [if_neg h2] at h
          exact absurd h (by simp)
    · rw [if_neg hk] at h
      injection h with h'
      subst h'
      exact ⟨metaBase_side .., by rw [if_neg hpw], metaBase_mono ..⟩

lemma moveBody_spec {s : BoardState} {frm unto : Coords} {suc : Success} {s' : BoardState}
    (h : moveBody s frm unto = some (suc, s')) :
    s'.side_to_move = s.side_to_move.opp
    ∧ s'.en_passant_target = epTargetOf s frm unto
    ∧ castles_le s' s := by
  unfold moveBody at h
  split at h
  · exact absurd h (by simp)
  · rename_i mover taken b2 hmp
    split at h
    · exact absurd h (by simp)
    · rename_i s4 hum
      split at h
      · exact absurd h (by simp)
      · injection h with h'
        have hs' : s' = s4 := congrArg (·.2) h' |>.symm
        subst hs'
        obtain ⟨h1, h2, h3⟩ := updateMeta_spec hum
        refine ⟨h1, ?_, h3⟩
        rw [h2, epTargetOf, movePieces_mover hmp]

/-- Claim C2: on success `make_move` flips `side_to_move` exactly once;
on failure (`Err`) the receiver is left exactly as it was — no field of
the state is mutated. -/
theorem make_move_flip_or_unchanged (s : BoardState) (frm unto : Coords) :
    (∀ suc s', make_move s frm unto = some (Except.ok suc, s') →
      s'.side_to_move = s.side_to_move.opp)
    ∧ (∀ e s', make_move s frm unto = some (Except.error e, s') → s' = s) := by
  constructor
  · intro suc s' h
    unfold make_move at h
    split at h
    · exact absurd h (by simp)
    · split at h
      · exact absurd h (by simp)
      · injection h with h'
        have hok := congrArg (·.1) h'
        have hst : s' = _ := congrArg (·.2) h' |>.symm
        subst hst
        rename_i suc' s'' heq
        exact (moveBody_spec heq).1
  · intro e s' h
    unfold make_move at h
    split at h
    · injection h with h'
      exact (congrArg (fun x => x.2) h').symm
    · split at h
      · exact absurd h (by simp)
      · exact absurd h (by simp)

lemma make_move_ok_spec {s : BoardState} {frm unto : Coords} {suc : Success} {s' : BoardState}
    (h : make_move s frm unto = some (Except.ok suc, s')) :
    s'.side_to_move = s.side_to_move.opp
    ∧ s'.en_passant_target = epTargetOf s frm unto
    ∧ castles_le s' s := by
  unfold make_move at h
  split at h
  · exact absurd h (by simp)
  · split at h
    · exact absurd h (by simp)
    · rename_i suc'' s'' heq
      injection h with h'
      have hst : s' = s'' := (congrArg (fun x => x.2) h').symm
      subst hst
      exact moveBody_spec heq

/-- Witness for C2 at the concrete input e2→e4 from the start position. -/
theorem make_move_flip_or_unchanged_witness :
    e2e4After.side_to_move = BoardState.new.side_to_move.opp :=
  (make_move_flip_or_unchanged BoardState.new e2c e4c).1 Success.PawnMovement e2e4After
    (by decide)

/-- Claim C5: after every successful `make_move` the en-passant target is
the square passed over when the mover was a pawn advancing two ranks and
`none` otherwise (so a previously set target is always cleared); in
particular e2→e4 from the start yields target e3 and black to move. -/
theorem make_move_en_passant :
    (∀ (s : BoardState) (frm unto : Coords) (suc : Success) (s' : BoardState),
      make_move s frm unto = some (Except.ok suc, s') →
        s'.en_passant_target = epTargetOf s frm unto)
    ∧ make_move BoardState.new e2c e4c = some (Except.ok Success.PawnMovement, e2e4After)
    ∧ e2e4After.en_passant_target = some e3c
    ∧ e2e4After.side_to_move = Colour.Black :=
  ⟨fun _ _ _ _ _ h => (make_move_ok_spec h).2.1, by decide, by decide, by decide⟩

/-- Witness for C5 at the concrete input d2→d4 from the start position. -/
theorem make_move_en_passant_witness :
    d2d4After.en_passant_target = epTargetOf BoardState.new d2c d4c :=
  make_move_en_passant.1 BoardState.new d2c d4c Success.PawnMovement d2d4After (by decide)

/-- Claim C6: castling rights are monotonically forfeited — any of the
four castling booleans that is `false` before a successful `make_move` is
still `false` afterwards. -/
theorem make_move_castles_monotone :
    ∀ (s : BoardState) (frm unto : Coords) (suc : Success) (s' : BoardState),
      make_move s frm unto = some (Except.ok suc, s') → castles_le s' s :=
  fun _ _ _ _ _ h => (make_move_ok_spec h).2.2

/-- Witness for C6 at the concrete input d2→d4 from the start position. -/
theorem make_move_castles_monotone_witness : castles_le d2d4After BoardState.new :=
  make_move_castles_monotone BoardState.new d2c d4c Success.PawnMovement d2d4After (by decide)

/-- Claim C3 (evaluation of the defect): `make_move` accepts a castle in
both situations the claim requires it to reject.  In `c3State` the black
rook on f5 attacks f1 — the square the king passes over — and white is
not in check, yet e1→g1 returns `Ok` and performs the castle (king to g1,
rook to f1).  In `c3StateB` the king on e1 is itself in check and e1→g1
is still accepted.  No castling-through-check test exists in
`make_move`/`is_possible`. -/
theorem castle_through_check_not_rejected :
    is_possible c3State ⟨5, 4⟩ ⟨5, 0⟩ Colour.Black = true
    ∧ in_check c3State Colour.White = some false
    ∧ (make_move c3State ⟨4, 0⟩ ⟨6, 0⟩).map (fun r => r.1)
        = some (Except.ok Success.PieceMovement)
    ∧ (make_move c3State ⟨4, 0⟩ ⟨6, 0⟩).map (fun r => r.2.board.get ⟨6, 0⟩) = some WK
    ∧ (make_move c3State ⟨4, 0⟩ ⟨6, 0⟩).map (fun r => r.2.board.get ⟨5, 0⟩) = some WR
    ∧ in_check c3StateB Colour.White = some true
    ∧ (make_move c3StateB ⟨4, 0⟩ ⟨6, 0⟩).map (fun r => r.1)
        = some (Except.ok Success.PieceMovement) := by
  decide

/-- Claim C1: from the canonical starting position the move generator
produces exactly 20 legal moves and none of them is a castle (no king
move of two files). -/
theorem start_position_twenty_moves :
    (get_all_moves BoardState.new).map
      (fun ms => (ms.length, ms.countP (isCastleMove BoardState.new))) = some (20, 0) := by
  decide

lemma promotionSpecOk_of_ok {s : BoardState} {frm unto : Coords} {prm : Option Piece}
    {x : Success} {s' : BoardState}
    (h : make_move3 s frm unto prm = some (Except.ok x, s')) :
    promotionSpecOk s frm unto prm = true := by
  unfold make_move3 at h
  split at h
  · exact absurd h (by simp)
  · split at h
    · exact absurd h (by simp)
    · rename_i h1 h2
      cases hres : promotionSpecOk s frm unto prm with
      | true => rfl
      | false => exact absurd (by simp [hres]) h2

/-- Claim C4: the promotion-taking `make_move` validates the promotion
field — a pawn move onto the opponent's back rank succeeds only with a
promotion piece that is neither pawn nor king, and any other move
succeeds only with no promotion piece specified. -/
theorem make_move3_promotion_validation :
    ∀ (s : BoardState) (frm unto : Coords) (prm : Option Piece) (x : Success)
      (s' : BoardState),
      make_move3 s frm unto prm = some (Except.ok x, s') →
        (isPromotionMove s frm unto = true →
          ∃ p, prm = some p ∧ p ≠ Piece.Pawn ∧ p ≠ Piece.King)
        ∧ (isPromotionMove s frm unto = false → prm = none) := by
  intro s frm unto prm x s' h
  have hp := promotionSpecOk_of_ok h
  unfold promotionSpecOk at hp
  by_cases hip : isPromotionMove s frm unto = true
  · rw [if_pos hip] at hp
    refine ⟨fun _ => ?_, fun hf => by rw [hip] at hf; cases hf⟩
    cases prm with
    | none => exact absurd hp (by simp)
    | some p =>
      cases p with
      | Pawn => exact absurd hp (by simp)
      | King => exact absurd hp (by simp)
      | Rook => exact ⟨.Rook, rfl, by decide, by decide⟩
      | Knight => exact ⟨.Knight, rfl, by decide, by decide⟩
      | Bishop => exact ⟨.Bishop, rfl, by decide, by decide⟩
      | Queen => exact ⟨.Queen, rfl, by decide, by decide⟩
  · rw [if_neg hip] at hp
    refine ⟨fun ht => absurd ht hip, fun _ => ?_⟩
    simpa using hp

/-- Witness for C4 at the concrete promotion a7→a8=Q in `c4State`. -/
theorem make_move3_promotion_validation_witness :
    ∃ p, (some Piece.Queen : Option Piece) = some p ∧ p ≠ Piece.Pawn ∧ p ≠ Piece.King :=
  (make_move3_promotion_validation c4State ⟨0, 6⟩ ⟨0, 7⟩ (some Piece.Queen)
    Success.PawnMovementAndCheck c4After (by decide)).1 (by decide)

/-- Claim C7: when the side to move has no legal moves, `eval` returns
`-∞` if that side is in check (checkmate) and `0` if not (stalemate).
The two hypotheses are exactly the code's terminal tests; they hold in
any position with both kings present and no legal reply. -/
theorem eval_terminal (pb : Int → ℚ) (s : BoardState) (b : Bool)
    (hmoves : any_legal_moves s = some false)
    (hchk : in_check s s.side_to_move = some b) :
    eval pb s = some (if b then EvalV.negInf else EvalV.fin 0) := by
  simp only [eval, hmoves, hchk, Bool.not_false, if_true]

/-- Witness for C7 at the concrete stalemate `c7State`. -/
theorem eval_terminal_witness :
    eval (fun _ => (0 : ℚ)) c7State = some (if false then EvalV.negInf else EvalV.fin 0) :=
  eval_terminal (fun _ => (0 : ℚ)) c7State false (by decide) (by decide)

/-- Claim C8, counterexample: `search` at depth 1 with the node budget
exhausted (`max_nodes = 1`, one cached node) and no cached entry of
sufficient depth (the only entry was computed at depth 0) does **not**
return the static evaluation `eval = 0`: it returns the stale cached
`42` — and re-stores it tagged with depth 1. -/
theorem search_stale_cache_counterexample :
    search (fun _ => (0 : ℚ)) 1 1 c7State EvalV.nan EvalV.nan c8Cache
        = some (EvalV.fin 42, [(c7State, 1, EvalV.fin 42)])
    ∧ eval (fun _ => (0 : ℚ)) c7State = some (EvalV.fin 0)
    ∧ TMap.find? c8Cache c7State = some (0, EvalV.fin 42)
    ∧ (1 : Nat) ≤ TMap.length c8Cache
    ∧ EvalV.fin 42 ≠ EvalV.fin 0 := by
  decide

/-- Claim C8 as amended: a cached evaluation short-circuits the recursive
search when its recorded depth is at least the requested depth; on the
`depth == 0` / budget-exhausted path the search returns **any** cached
value for the position regardless of its recorded depth (re-tagging it
with the requested depth), and falls back to the static evaluation only
when the position is absent from the cache. -/
theorem search_cache_behaviour (pb : Int → ℚ) (maxN depth : Nat) (s : BoardState)
    (a b : EvalV) (tr : TMap) :
    (∀ d v, TMap.find? tr s = some (d, v) → depth ≤ d →
      search pb maxN depth s a b tr = some (v, tr))
    ∧ (TMap.find? tr s = none → (depth = 0 ∨ maxN ≤ TMap.length tr) →
        search pb maxN depth s a b tr =
          (eval pb s).map fun v => (v, TMap.insert tr s depth v))
    ∧ (∀ d v, TMap.find? tr s = some (d, v) → d < depth → maxN ≤ TMap.length tr →
        search pb maxN depth s a b tr = some (v, TMap.insert tr s depth v)) := by
  refine ⟨?_, ?_, ?_⟩
  · intro d v hfind hle
    unfold search
    simp only [hfind, if_pos hle]
  · intro hfind hcond
    unfold search
    simp only [hfind, search_inner, if_pos hcond]
    cases heval : eval pb s <;> simp [heval]
  · intro d v hfind hlt hbudget
    unfold search
    have hnle : ¬ depth ≤ d := by omega
    simp only [hfind, if_neg hnle, search_inner, if_pos (Or.inr hbudget)]

/-- Witness for the amended C8: a cached entry of sufficient depth is
returned unchanged. -/
theorem search_cache_behaviour_witness :
    search (fun _ => (0 : ℚ)) 1 1 c7State EvalV.nan EvalV.nan [(c7State, 1, EvalV.fin 5)]
      = some (EvalV.fin 5, [(c7State, 1, EvalV.fin 5)]) :=
  (search_cache_behaviour (fun _ => (0 : ℚ)) 1 1 c7State EvalV.nan EvalV.nan
      [(c7State, 1, EvalV.fin 5)]).1 1 (EvalV.fin 5) (by decide) (by decide)

/-- Claim C9: `get_moves_ranked` is deterministic — it is a pure function
of the position, `max_depth` and `max_nodes` (its transposition table is
created locally and only read through order-insensitive operations), so
two calls on identical inputs return identical evaluations and identical
ranked move lists. -/
theorem get_moves_ranked_deterministic :
    ∀ (pb : Int → ℚ) (s : BoardState) (max_depth max_nodes : Nat)
      (r₁ r₂ : Option (EvalV × List Move)),
      get_moves_ranked pb s max_depth max_nodes = r₁ →
      get_moves_ranked pb s max_depth max_nodes = r₂ → r₁ = r₂ :=
  fun _ _ _ _ _ _ h1 h2 => h1.symm.trans h2

/-- Witness for C9 at the starting position, depth 1, budget 20. -/
theorem get_moves_ranked_deterministic_witness :
    get_moves_ranked (fun _ => (0 : ℚ)) BoardState.new 1 20
      = get_moves_ranked (fun _ => (0 : ℚ)) BoardState.new 1 20 :=
  get_moves_ranked_deterministic (fun _ => (0 : ℚ)) BoardState.new 1 20
    (get_moves_ranked (fun _ => (0 : ℚ)) BoardState.new 1 20)
    (get_moves_ranked (fun _ => (0 : ℚ)) BoardState.new 1 20) rfl rfl

end Talv
